import Mathlib

/-!
Verification of the manifest decoder, hierarchy resolver, path/verify logic
and fetch engine of `old_lol_dl.py` (a release-manifest download tool).

The Python source is shallowly embedded: byte buffers become `List Nat`
(one entry per byte), the sequential `BytesIO` cursor becomes explicit
take/drop on the remaining byte list, Python exceptions become `Except` /
`Option` results, and the filesystem / network side effects of the fetch
engine become an explicit state (`FS`) plus an oracle (`Env`) describing
the outcome of each external call.
-/

deriving instance DecidableEq for Except

namespace OldLolDl

/-- Little-endian integer value of a byte list, as produced by Python's
`int.from_bytes(b, byteorder='little')`.  Works on any length, including
the empty list (Python returns 0 there as well). -/
def leNat : List Nat → Nat
  | [] => 0
  | b :: rest => b + 256 * leNat rest

/-- Python `buffer.read n` on a `BytesIO`: return up to `n` bytes and the rest of
the buffer.  Returns fewer bytes (no error) when the buffer is short. -/
def bread (n : Nat) (b : List Nat) : List Nat × List Nat :=
  (b.take n, b.drop n)

/-- The `ManHeader` record of the source: `struct '< H H I 4s'`. -/
structure ManHeader where
  major_version : Nat
  minor_version : Nat
  project_name : Nat
  release_version : List Nat
  deriving DecidableEq, Repr

/-- The `ManFolder` record of the source: `struct '< I I I I I'`.  Children are
contiguous index ranges `[folders_start, folders_start+folders_count)` into
the folder array and `[files_start, files_start+files_count)` into the file
array. -/
structure ManFolder where
  name : Nat
  folders_start : Nat
  folders_count : Nat
  files_start : Nat
  files_count : Nat
  deriving DecidableEq, Repr

/-- The `ManFile` record of the source: `struct '< I 4s 16s I I I Q'`. -/
structure ManFile where
  name : Nat
  version : List Nat
  md5 : List Nat
  deploy_mode : Nat
  size_uncompressed : Nat
  size_compressed : Nat
  date : Nat
  deriving DecidableEq, Repr

/-- The decoded manifest (`Man` named tuple of the source). -/
structure Man where
  header : ManHeader
  folders : List ManFolder
  folder_parents : List (Option Nat)
  files : List ManFile
  file_parents : List (Option Nat)
  names : List String
  deriving DecidableEq, Repr

/-- Errors that `Man.read` can raise in the source: a failed
`assert(magic == b"RLSM")`, a `struct.error` on a truncated record, a
`UnicodeDecodeError` on the name blob, or an `IndexError` from a parent
assignment out of range. -/
inductive ManError where
  | badMagic
  | truncated
  | utf8
  | indexOutOfRange
  deriving DecidableEq, Repr

/-- Source `ManHeader.read`: reads 12 bytes and unpacks `< H H I 4s`.
`struct.unpack_from` raises (`none`) when fewer than 12 bytes remain. -/
def ManHeader.parse (b : List Nat) : Option (ManHeader × List Nat) :=
  let chunk := b.take 12
  if chunk.length = 12 then
    some ({ major_version := leNat (chunk.take 2)
          , minor_version := leNat ((chunk.drop 2).take 2)
          , project_name := leNat ((chunk.drop 4).take 4)
          , release_version := (chunk.drop 8).take 4 }, b.drop 12)
  else none

/-- Source `ManFolder.read`: reads 20 bytes and unpacks `< I I I I I`. -/
def ManFolder.parse (b : List Nat) : Option (ManFolder × List Nat) :=
  let chunk := b.take 20
  if chunk.length = 20 then
    some ({ name := leNat (chunk.take 4)
          , folders_start := leNat ((chunk.drop 4).take 4)
          , folders_count := leNat ((chunk.drop 8).take 4)
          , files_start := leNat ((chunk.drop 12).take 4)
          , files_count := leNat ((chunk.drop 16).take 4) }, b.drop 20)
  else none

/-- Source `ManFile.read`: reads 44 bytes and unpacks `< I 4s 16s I I I Q`. -/
def ManFile.parse (b : List Nat) : Option (ManFile × List Nat) :=
  let chunk := b.take 44
  if chunk.length = 44 then
    some ({ name := leNat (chunk.take 4)
          , version := (chunk.drop 4).take 4
          , md5 := (chunk.drop 8).take 16
          , deploy_mode := leNat ((chunk.drop 24).take 4)
          , size_uncompressed := leNat ((chunk.drop 28).take 4)
          , size_compressed := leNat ((chunk.drop 32).take 4)
          , date := leNat ((chunk.drop 36).take 4 ++ (chunk.drop 40).take 4) }, b.drop 44)
  else none

/-- Source `[ ManFolder.read(buffer) for _ in range(0, folder_count) ]`. -/
def readFolders : Nat → List Nat → Option (List ManFolder × List Nat)
  | 0, b => some ([], b)
  | n + 1, b =>
    match ManFolder.parse b with
    | none => none
    | some (f, b2) =>
      match readFolders n b2 with
      | none => none
      | some (fs, b3) => some (f :: fs, b3)

/-- Source `[ ManFile.read(buffer) for _ in range(0, file_count) ]`. -/
def readFiles : Nat → List Nat → Option (List ManFile × List Nat)
  | 0, b => some ([], b)
  | n + 1, b =>
    match ManFile.parse b with
    | none => none
    | some (f, b2) =>
      match readFiles n b2 with
      | none => none
      | some (fs, b3) => some (f :: fs, b3)

/-- A UTF-8 continuation byte. -/
def isCont (b : Nat) : Bool := 128 ≤ b && b < 192

/-- Strict UTF-8 decoding as performed by Python's `bytes.decode('utf-8')`:
rejects continuation bytes in lead position, overlong encodings, surrogates
and code points above U+10FFFF. -/
def utf8Decode : List Nat → Option (List Char)
  | [] => some []
  | b :: rest =>
    if b < 128 then
      (utf8Decode rest).map (fun cs => Char.ofNat b :: cs)
    else if b < 194 then none
    else if b < 224 then
      match rest with
      | b1 :: r =>
        if isCont b1 then
          (utf8Decode r).map (fun cs => Char.ofNat ((b - 192) * 64 + (b1 - 128)) :: cs)
        else none
      | [] => none
    else if b < 240 then
      match rest with
      | b1 :: b2 :: r =>
        let ok1 : Bool :=
          if b = 224 then decide (160 ≤ b1 ∧ b1 < 192)
          else if b = 237 then decide (128 ≤ b1 ∧ b1 < 160)
          else isCont b1
        if ok1 && isCont b2 then
          (utf8Decode r).map
            (fun cs => Char.ofNat ((b - 224) * 4096 + (b1 - 128) * 64 + (b2 - 128)) :: cs)
        else none
      | _ => none
    else if b < 245 then
      match rest with
      | b1 :: b2 :: b3 :: r =>
        let ok1 : Bool :=
          if b = 240 then decide (144 ≤ b1 ∧ b1 < 192)
          else if b = 244 then decide (128 ≤ b1 ∧ b1 < 144)
          else isCont b1
        if ok1 && isCont b2 && isCont b3 then
          (utf8Decode r).map
            (fun cs =>
              Char.ofNat ((b - 240) * 262144 + (b1 - 128) * 4096 + (b2 - 128) * 64 + (b3 - 128)) :: cs)
        else none
      | _ => none
    else none

/-- Python `str.split('\0')`: splitting an empty string yields `[""]`. -/
def splitOnNul : List Char → List (List Char)
  | [] => [[]]
  | c :: rest =>
    if c = Char.ofNat 0 then [] :: splitOnNul rest
    else
      match splitOnNul rest with
      | h :: t => (c :: h) :: t
      | [] => [[c]]

/-- Python list assignment `l[i] = v`: raises `IndexError` (`none`) when
`i` is out of range. -/
def setAt (l : List (Option Nat)) (i : Nat) (v : Nat) : Option (List (Option Nat)) :=
  if i < l.length then some (l.set i v) else none

/-- Source `for sub in range(s, s + c): l[sub] = p` — the inner assignment loops of
`Man.read`. -/
def assignRange : List (Option Nat) → Nat → Nat → Nat → Option (List (Option Nat))
  | l, _, 0, _ => some l
  | l, s, c + 1, p =>
    match setAt l s p with
    | none => none
    | some l2 => assignRange l2 (s + 1) c p

/-- One iteration of `for parent, folder in enumerate(folders)`: assign
`parent` over the folder's folder range, then over its file range. -/
def assignStep (fp gp : List (Option Nat)) (f : ManFolder) (p : Nat) :
    Option (List (Option Nat) × List (Option Nat)) :=
  match assignRange fp f.folders_start f.folders_count p with
  | none => none
  | some fp2 =>
    match assignRange gp f.files_start f.files_count p with
    | none => none
    | some gp2 => some (fp2, gp2)

/-- The full parent-assignment loop of `Man.read` over the folder table. -/
def assignLoop : List ManFolder → Nat → List (Option Nat) → List (Option Nat) →
    Option (List (Option Nat) × List (Option Nat))
  | [], _, fp, gp => some (fp, gp)
  | f :: rest, p, fp, gp =>
    match assignStep fp gp f p with
    | none => none
    | some (fp2, gp2) => assignLoop rest (p + 1) fp2 gp2

/-- ASCII bytes of `b"RLSM"`. -/
def rlsmMagic : List Nat := [82, 76, 83, 77]

/-- Source `Man.read(buffer)`: decode the binary manifest.  Follows the source
line by line: magic, header, folder table, file table, name counts, name
blob (UTF-8, split on NUL), then the parent-assignment loop. -/
def Man.read (buf : List Nat) : Except ManError Man :=
  let r0 := bread 4 buf
  if r0.1 = rlsmMagic then
    match ManHeader.parse r0.2 with
    | none => .error .truncated
    | some (header, b1) =>
      let r1 := bread 4 b1
      let folder_count := leNat r1.1
      match readFolders folder_count r1.2 with
      | none => .error .truncated
      | some (folders, b2) =>
        let r2 := bread 4 b2
        let file_count := leNat r2.1
        match readFiles file_count r2.2 with
        | none => .error .truncated
        | some (files, b3) =>
          let r3 := bread 4 b3
          let _name_count := leNat r3.1
          let r4 := bread 4 r3.2
          let name_data_length := leNat r4.1
          let r5 := bread name_data_length r4.2
          match utf8Decode r5.1 with
          | none => .error .utf8
          | some chars =>
            let names := (splitOnNul chars).map (fun l => String.mk l)
            match assignLoop folders 0 (List.replicate folder_count none)
                (List.replicate file_count none) with
            | none => .error .indexOutOfRange
            | some (fp, gp) =>
              .ok { header := header, folders := folders, folder_parents := fp
                  , files := files, file_parents := gp, names := names }
  else .error .badMagic

/-- Source `Man.file_name`: `self.names[self.files[file_index].name]`.  `none`
models the `IndexError` the source raises on an out-of-range index. -/
def Man.file_name (m : Man) (i : Nat) : Option String :=
  (m.files.get? i).bind fun f => m.names.get? f.name

/-- The `while folder_index != None` walk of `Man.file_folder`, with fuel.
Each iteration prepends `names[folders[fi].name] + "/"` and moves to
`folder_parents[fi]`.  `none` models a raised `IndexError` or, when the
fuel runs out, a parent cycle on which the source loops forever: a
terminating walk visits pairwise distinct folder indices, so fuel
`folders.length` (the value passed by `Man.file_folder`) never cuts a walk
the source completes. -/
def Man.fileFolderAux (m : Man) : Nat → Option Nat → String → Option String
  | _, none, acc => some acc
  | 0, some _, _ => none
  | fuel + 1, some fi, acc =>
    match m.folders.get? fi, m.folder_parents.get? fi with
    | some f, some pnext =>
      match m.names.get? f.name with
      | some nm => m.fileFolderAux fuel pnext (nm ++ "/" ++ acc)
      | none => none
    | _, _ => none

/-- Source `Man.file_folder`: walk parent links upward from
`file_parents[file_index]`, accumulating `name + "/"` root-to-leaf. -/
def Man.file_folder (m : Man) (i : Nat) : Option String :=
  match m.file_parents.get? i with
  | none => none
  | some p => m.fileFolderAux m.folders.length p ""

/-- Source `Man.file_path`: the f-string concatenation of `file_folder(i)` and `file_name(i)`. -/
def Man.file_path (m : Man) (i : Nat) : Option String :=
  match m.file_folder i, m.file_name i with
  | some d, some n => some (d ++ n)
  | _, _ => none

/-- Lowercase hex rendering of a byte, as in `binascii.hexlify` and
`hashlib.md5().hexdigest()`. -/
def hexChar (n : Nat) : Char :=
  if n < 10 then Char.ofNat (48 + n) else Char.ofNat (87 + n)

/-- Lowercase hex string of a byte list. -/
def hexlify (bs : List Nat) : String :=
  String.mk ((bs.map (fun b => [hexChar (b / 16 % 16), hexChar (b % 16)])).flatten)

/-- Source `Man.file_md5_hex`: `binascii.hexlify(files[i].md5)`. -/
def Man.file_md5_hex (m : Man) (i : Nat) : Option String :=
  (m.files.get? i).map fun f => hexlify f.md5

/-- The local filesystem as the fetch engine sees it: file contents by
path, and the set of directories that exist. -/
structure FS where
  files : String → Option (List Nat)
  dirs : String → Bool

/-- Source `Man.file_verify(file_index, out)`: returns `false` if the path does
not exist, its size differs from `size_uncompressed`, or its streamed MD5
hexdigest differs from the recorded digest; `true` otherwise.  The MD5
function itself lives in `hashlib` and is abstracted as the parameter
`md5fn`; reading the file in 64 KiB chunks feeds the same bytes to the
hash as reading it whole.  The function only reads the filesystem, so it
takes `fs.files` and returns a `Bool`; `none` models the `IndexError` the
source would raise computing the path. -/
def Man.file_verify (md5fn : List Nat → List Nat) (fsFiles : String → Option (List Nat))
    (m : Man) (i : Nat) (out : String) : Option Bool :=
  match m.file_path i with
  | none => none
  | some rel =>
    let path := out ++ rel
    match fsFiles path with
    | none => some false
    | some content =>
      match m.files.get? i with
      | none => none
      | some f =>
        if content.length ≠ f.size_uncompressed then some false
        else if hexlify (md5fn content) ≠ hexlify f.md5 then some false
        else some true

/-- Oracle for the external effects of the fetch engine.  `fetch i k` is
the combined outcome of the `k`-th `urlopen(file_url(i)).read()` plus
`zlib.decompress` for file `i`: either the inflated bytes or the exception
raised by either step.  `mkdir d` and `write p` are the outcomes of
`os.makedirs(d)` and of `open(p,'wb').write`; `manifest u` is the outcome
of the manifest `GET u`. -/
structure Env where
  mkdir : String → Except String Unit
  fetch : Nat → Nat → Except String (List Nat)
  write : String → Except String Unit
  manifest : String → Except String (List Nat)

/-- The `while True` retry loop of `Man.file_download`, starting at
attempt number `k` with `retries` retries left.  Returns the final result
(inflated bytes, or the last error once retries are exhausted) together
with the number of fetch attempts performed. -/
def fetchLoop (oracle : Nat → Except String (List Nat)) :
    Nat → Nat → Except String (List Nat) × Nat
  | k, retries =>
    match oracle k with
    | .ok d => (.ok d, 1)
    | .error e =>
      match retries with
      | 0 => (.error e, 1)
      | r + 1 =>
        let (res, n) := fetchLoop oracle (k + 1) r
        (res, n + 1)

/-- Source `Man.file_download(file_index, cdn, out, retries)` (the source defaults
`retries` to 3; the default is applied at the call site in
`fetchClosure`).  Computes `path = out + file_path(i)` before the `try`
(`none` models the raise/divergence of that line when the path does not
resolve); inside the `try`, `os.makedirs(out + "/" + file_folder(i))`,
then the retry loop, then the write.  Every exception inside the `try` is
returned as the second component of the result pair, never rethrown. -/
def Man.file_download (env : Env) (fs : FS) (m : Man) (i : Nat) (cdn out : String)
    (retries : Nat) : Option (FS × (String × Option String)) :=
  match m.file_path i with
  | none => none
  | some rel =>
    let path := out ++ rel
    match m.file_folder i with
    | none => none
    | some dir =>
      let dirPath := out ++ "/" ++ dir
      match env.mkdir dirPath with
      | .error e => some (fs, (path, some e))
      | .ok _ =>
        let fs1 : FS := { fs with dirs := fun d => if d = dirPath then true else fs.dirs d }
        match fetchLoop (env.fetch i) 0 retries with
        | (.error e, _) => some (fs1, (path, some e))
        | (.ok data, _) =>
          match env.write path with
          | .error e => some (fs1, (path, some e))
          | .ok _ =>
            some ({ fs1 with files := fun q => if q = path then some data else fs1.files q },
                  (path, none))

/-- Splitting a character list on `'.'`, with Python's `str.split`
semantics (an empty string yields one empty component). -/
def splitDots : List Char → List (List Char)
  | [] => [[]]
  | c :: rest =>
    if c = '.' then [] :: splitDots rest
    else
      match splitDots rest with
      | h :: t => (c :: h) :: t
      | [] => [[c]]

/-- Decimal value of a digit string. -/
def digitsVal (cs : List Char) : Nat :=
  cs.foldl (fun a c => a * 10 + (c.toNat - 48)) 0

/-- Models Python `int(x)` on a version component: accepts an optional
minus sign followed by one or more ASCII digits.  (Python's `int` is more
lenient — it also strips whitespace and accepts `+` and underscores — but
the claims only exercise digit strings, on which the two agree.) -/
def parsePyInt (cs : List Char) : Option Int :=
  match cs with
  | '-' :: rest =>
    if rest ≠ [] ∧ rest.all Char.isDigit then some (-(digitsVal rest : Int)) else none
  | _ =>
    if cs ≠ [] ∧ cs.all Char.isDigit then some ((digitsVal cs : Nat) : Int) else none

/-- Rendering `str(int(x))` for a component that parses, `""` otherwise (only used
under hypotheses that guarantee the parse succeeds). -/
def renderComp (cs : List Char) : String :=
  match parsePyInt cs with
  | some i => toString i
  | none => ""

/-- Source `[str(int(x)) for x in comps]`: `none` when any `int(x)` raises. -/
def mapPyInt : List (List Char) → Option (List String)
  | [] => some []
  | c :: rest =>
    match parsePyInt c with
    | none => none
    | some v =>
      match mapPyInt rest with
      | none => none
      | some l => some (toString v :: l)

/-- The version-padding prelude of `download`:
`version = [str(int(x)) for x in version.split('.')]` (a failed `int`
raises, modelled by `none`), then left-pad with `"0"` components to four
(`["0"] * (4 - len)` is empty when there are more than four components,
matching Python's negative list repeat), then join with `"."`. -/
def padVersion (version : String) : Option String :=
  match mapPyInt (splitDots version.data) with
  | none => none
  | some comps =>
    some (String.intercalate "." (List.replicate (4 - comps.length) "0" ++ comps))

/-- The manifest URL f-string of the source: cdn, then "/projects/", project, "/releases/", the padded version, "/releasemanifest". -/
def manifestUrl (cdn project v4 : String) : String :=
  cdn ++ "/projects/" ++ project ++ "/releases/" ++ v4 ++ "/releasemanifest"

/-- The manifest URL `download` requests, as a function of its raw
arguments. -/
def downloadManifestUrl (cdn project version : String) : Option String :=
  (padVersion version).map (manifestUrl cdn project)

/-- Filtering loop behind `missingFiles`: keeps the indices whose
verification returns `false`; `none` models an exception escaping a
`file_verify` call. -/
def missingFilesGo (md5fn : List Nat → List Nat) (fsFiles : String → Option (List Nat))
    (m : Man) (out : String) : List Nat → Option (List Nat)
  | [] => some []
  | i :: rest =>
    match Man.file_verify md5fn fsFiles m i out with
    | none => none
    | some true => missingFilesGo md5fn fsFiles m out rest
    | some false =>
      match missingFilesGo md5fn fsFiles m out rest with
      | none => none
      | some l => some (i :: l)

/-- The worklist
`[i for i in man.file_range() if not man.file_verify(i, output)]`. -/
def missingFiles (md5fn : List Nat → List Nat) (fsFiles : String → Option (List Nat))
    (m : Man) (out : String) : Option (List Nat) :=
  missingFilesGo md5fn fsFiles m out (List.range m.files.length)

/-- Source `fetch = lambda file_index: man.file_download(file_index, cdn, output)`
— the per-file closure `download` hands to the thread pool.  Note the
`retries` argument of `download` is not forwarded: `file_download` runs
with its default of 3 retries. -/
def fetchClosure (env : Env) (m : Man) (cdn out : String) :
    Nat → FS → Option (FS × (String × Option String)) :=
  fun i fs => Man.file_download env fs m i cdn out 3

/-- The fan-out over the worklist.  The source uses
`ThreadPool(threads).imap_unordered`; the model runs the per-file tasks
sequentially in worklist order (each task touches a distinct path, and no
claim concerns completion order).  `none` models a worker exception
re-raised while iterating the results. -/
def runFetches (env : Env) (m : Man) (cdn out : String) :
    List Nat → FS → Option (FS × List (String × Option String))
  | [], fs => some (fs, [])
  | i :: rest, fs =>
    match fetchClosure env m cdn out i fs with
    | none => none
    | some (fs2, outcome) =>
      match runFetches env m cdn out rest fs2 with
      | none => none
      | some (fs3, outs) => some (fs3, outcome :: outs)

/-- Fatal errors of the top-level `download`: a `ValueError` from version
parsing, a manifest fetch failure, a malformed manifest, or an exception
escaping the verify/fetch phases. -/
inductive DLFatal where
  | badVersion
  | manifestFetch (e : String)
  | badManifest (e : ManError)
  | verifyRaise
  | fetchRaise
  deriving DecidableEq, Repr

/-- Source `download(cdn, project, version, output, threads, retries)`.  Pads the
version, GETs the manifest, decodes it, computes the worklist of files
failing verification, and fetches each one.  `threads` only sizes the
thread pool (the model is sequential) and `retries` is accepted but never
used by the source body. -/
def download (env : Env) (md5fn : List Nat → List Nat) (fs : FS)
    (cdn project version out : String) (threads retries : Nat) :
    Except DLFatal (FS × List (String × Option String)) :=
  match padVersion version with
  | none => .error .badVersion
  | some v4 =>
    let url := manifestUrl cdn project v4
    match env.manifest url with
    | .error e => .error (.manifestFetch e)
    | .ok bytes =>
      match Man.read bytes with
      | .error e => .error (.badManifest e)
      | .ok man =>
        match missingFiles md5fn fs.files man out with
        | none => .error .verifyRaise
        | some missing =>
          match runFetches env man cdn out missing fs with
          | none => .error .fetchRaise
          | some (fs2, outcomes) => .ok (fs2, outcomes)

/-! ### Concrete example manifests -/

/-- Bytes of a small well-formed manifest: root folder 0 (name `""`)
containing folder 1 (name `"A"`), which contains file 0 (`"f.txt"`). -/
def exBuf1 : List Nat :=
  [82, 76, 83, 77,                -- magic "RLSM"
   1, 0, 0, 0, 1, 0, 0, 0, 1, 2, 3, 4,   -- header
   2, 0, 0, 0,                    -- folder_count
   0, 0, 0, 0, 1, 0, 0, 0, 1, 0, 0, 0, 0, 0, 0, 0, 0, 0, 0, 0,  -- folder 0
   1, 0, 0, 0, 0, 0, 0, 0, 0, 0, 0, 0, 0, 0, 0, 0, 1, 0, 0, 0,  -- folder 1
   1, 0, 0, 0,                    -- file_count
   2, 0, 0, 0, 0, 0, 0, 1,        -- file 0: name, version
   0, 0, 0, 0, 0, 0, 0, 0, 0, 0, 0, 0, 0, 0, 0, 0,              -- md5
   0, 0, 0, 0, 3, 0, 0, 0, 0, 0, 0, 0, 0, 0, 0, 0, 0, 0, 0, 0,  -- deploy, sizes, date
   3, 0, 0, 0,                    -- name_count
   8, 0, 0, 0,                    -- name_data_length
   0, 65, 0, 102, 46, 116, 120, 116]     -- "\0A\0f.txt"

/-- The decode of `exBuf1`. -/
def exMan1 : Man :=
  { header := { major_version := 1, minor_version := 0, project_name := 1
              , release_version := [1, 2, 3, 4] }
  , folders := [ { name := 0, folders_start := 1, folders_count := 1
                 , files_start := 0, files_count := 0 }
               , { name := 1, folders_start := 0, folders_count := 0
                 , files_start := 0, files_count := 1 } ]
  , folder_parents := [none, some 0]
  , files := [ { name := 2, version := [0, 0, 0, 1], md5 := List.replicate 16 0
               , deploy_mode := 0, size_uncompressed := 3, size_compressed := 0
               , date := 0 } ]
  , file_parents := [some 1]
  , names := ["", "A", "f.txt"] }

/-- Bytes of a manifest with OVERLAPPING file ranges: both folder 0 and
folder 1 claim file 0; file 1 is claimed by nobody. -/
def exBuf2 : List Nat :=
  [82, 76, 83, 77,
   1, 0, 0, 0, 0, 0, 0, 0, 1, 2, 3, 4,
   2, 0, 0, 0,
   0, 0, 0, 0, 1, 0, 0, 0, 1, 0, 0, 0, 0, 0, 0, 0, 1, 0, 0, 0,  -- folder 0: files [0,1)
   1, 0, 0, 0, 0, 0, 0, 0, 0, 0, 0, 0, 0, 0, 0, 0, 1, 0, 0, 0,  -- folder 1: files [0,1)
   2, 0, 0, 0,
   2, 0, 0, 0, 0, 0, 0, 1,
   0, 0, 0, 0, 0, 0, 0, 0, 0, 0, 0, 0, 0, 0, 0, 0,
   0, 0, 0, 0, 1, 0, 0, 0, 0, 0, 0, 0, 0, 0, 0, 0, 0, 0, 0, 0,
   2, 0, 0, 0, 0, 0, 0, 1,
   0, 0, 0, 0, 0, 0, 0, 0, 0, 0, 0, 0, 0, 0, 0, 0,
   0, 0, 0, 0, 1, 0, 0, 0, 0, 0, 0, 0, 0, 0, 0, 0, 0, 0, 0, 0,
   3, 0, 0, 0,
   8, 0, 0, 0,
   0, 65, 0, 102, 46, 116, 120, 116]

/-- The decode of `exBuf2`: file 0's parent is folder 1 (the later
writer), file 1's parent stays `None`. -/
def exMan2 : Man :=
  { header := { major_version := 1, minor_version := 0, project_name := 0
              , release_version := [1, 2, 3, 4] }
  , folders := [ { name := 0, folders_start := 1, folders_count := 1
                 , files_start := 0, files_count := 1 }
               , { name := 1, folders_start := 0, folders_count := 0
                 , files_start := 0, files_count := 1 } ]
  , folder_parents := [none, some 0]
  , files := [ { name := 2, version := [0, 0, 0, 1], md5 := List.replicate 16 0
               , deploy_mode := 0, size_uncompressed := 1, size_compressed := 0
               , date := 0 }
             , { name := 2, version := [0, 0, 0, 1], md5 := List.replicate 16 0
               , deploy_mode := 0, size_uncompressed := 1, size_compressed := 0
               , date := 0 } ]
  , file_parents := [some 1, none]
  , names := ["", "A", "f.txt"] }

/-- A directly constructed 3-level manifest root → A → B with `f.txt` in
B (the root folder's name is the empty string). -/
def exMan3 : Man :=
  { header := { major_version := 1, minor_version := 0, project_name := 0
              , release_version := [1, 2, 3, 4] }
  , folders := [ { name := 0, folders_start := 1, folders_count := 1
                 , files_start := 0, files_count := 0 }
               , { name := 1, folders_start := 2, folders_count := 1
                 , files_start := 0, files_count := 0 }
               , { name := 2, folders_start := 0, folders_count := 0
                 , files_start := 0, files_count := 1 } ]
  , folder_parents := [none, some 0, some 1]
  , files := [ { name := 3, version := [0, 0, 0, 1], md5 := List.replicate 16 0
               , deploy_mode := 0, size_uncompressed := 3, size_compressed := 0
               , date := 0 } ]
  , file_parents := [some 2]
  , names := ["", "A", "B", "f.txt"] }

/-! ### Lemmas about the parent-assignment loop -/

theorem assignRange_length {s p : Nat} :
    ∀ {c : Nat} {l l2 : List (Option Nat)}, assignRange l s c p = some l2 →
      l2.length = l.length := by
  intro c
  induction c generalizing s with
  | zero =>
    intro l l2 h
    simp only [assignRange] at h
    cases h
    rfl
  | succ c ih =>
    intro l l2 h
    simp only [assignRange] at h
    cases hset : setAt l s p with
    | none => rw [hset] at h; cases h
    | some l1 =>
      rw [hset] at h
      have hl1 : l1 = l.set s p := by
        simp only [setAt] at hset
        split at hset
        · exact (Option.some.inj hset).symm
        · cases hset
      rw [ih h, hl1, List.length_set]

theorem assignRange_get_out {p i : Nat} :
    ∀ {c s : Nat} {l l2 : List (Option Nat)}, assignRange l s c p = some l2 →
      (i < s ∨ s + c ≤ i) → l2.get? i = l.get? i := by
  intro c
  induction c with
  | zero =>
    intro s l l2 h _
    simp only [assignRange] at h
    cases h
    rfl
  | succ c ih =>
    intro s l l2 h hi
    simp only [assignRange] at h
    cases hset : setAt l s p with
    | none => rw [hset] at h; cases h
    | some l1 =>
      rw [hset] at h
      have hl1 : l1 = l.set s p := by
        simp only [setAt] at hset
        split at hset
        · exact (Option.some.inj hset).symm
        · cases hset
      have hrec : l2.get? i = l1.get? i := ih h (by omega)
      have hne : s ≠ i := by omega
      rw [hrec, hl1, List.get?_set_ne _ _ hne]

theorem assignRange_get_in {p i : Nat} :
    ∀ {c s : Nat} {l l2 : List (Option Nat)}, assignRange l s c p = some l2 →
      s ≤ i → i < s + c → l2.get? i = some (some p) := by
  intro c
  induction c with
  | zero =>
    intro s l l2 _ h1 h2
    omega
  | succ c ih =>
    intro s l l2 h h1 h2
    simp only [assignRange] at h
    cases hset : setAt l s p with
    | none => rw [hset] at h; cases h
    | some l1 =>
      rw [hset] at h
      have hs : s < l.length ∧ l1 = l.set s p := by
        simp only [setAt] at hset
        split at hset
        · exact ⟨by assumption, (Option.some.inj hset).symm⟩
        · cases hset
      rcases Nat.eq_or_lt_of_le h1 with heq | hlt
      · subst heq
        have hout : l2.get? s = l1.get? s := assignRange_get_out h (by omega)
        rw [hout, hs.2, List.get?_set_eq_of_lt _ hs.1]
      · exact ih h hlt (by omega)

theorem assignRange_isSome {l : List (Option Nat)} {s c p : Nat}
    (h : c = 0 ∨ s + c ≤ l.length) : (assignRange l s c p).isSome := by
  induction c generalizing l s with
  | zero => simp [assignRange]
  | succ c ih =>
    have hs : s < l.length := by omega
    simp only [assignRange, setAt, hs, if_pos]
    exact ih (by rcases h with h | h; omega; right; rw [List.length_set]; omega)

/-- The index of the last folder (in table order, starting the numbering
at `p0`) whose range `[fsel f, fsel f + csel f)` contains `i`. -/
def lastOwnerBy (fsel csel : ManFolder → Nat) : List ManFolder → Nat → Nat → Option Nat
  | [], _, _ => none
  | f :: rest, p0, i =>
    match lastOwnerBy fsel csel rest (p0 + 1) i with
    | some q => some q
    | none => if fsel f ≤ i ∧ i < fsel f + csel f then some p0 else none

theorem lastOwnerBy_spec (fsel csel : ManFolder → Nat) :
    ∀ (F : List ManFolder) (p0 i : Nat),
      (match lastOwnerBy fsel csel F p0 i with
       | some q =>
         p0 ≤ q ∧
         (∃ f, F.get? (q - p0) = some f ∧ fsel f ≤ i ∧ i < fsel f + csel f) ∧
         (∀ j g, F.get? j = some g → fsel g ≤ i → i < fsel g + csel g → j ≤ q - p0)
       | none =>
         ∀ j g, F.get? j = some g → ¬(fsel g ≤ i ∧ i < fsel g + csel g)) := by
  intro F
  induction F with
  | nil =>
    intro p0 i
    simp [lastOwnerBy]
  | cons f rest ih =>
    intro p0 i
    have hrec := ih (p0 + 1) i
    simp only [lastOwnerBy]
    cases hlo : lastOwnerBy fsel csel rest (p0 + 1) i with
    | some q =>
      rw [hlo] at hrec
      obtain ⟨hq, ⟨f2, hget, ho1, ho2⟩, hmax⟩ := hrec
      refine ⟨by omega, ⟨f2, ?_, ho1, ho2⟩, ?_⟩
      · have : q - p0 = (q - (p0 + 1)) + 1 := by omega
        rw [this]
        simpa using hget
      · intro j g hj hg1 hg2
        cases j with
        | zero => omega
        | succ j2 =>
          have := hmax j2 g (by simpa using hj) hg1 hg2
          omega
    | none =>
      rw [hlo] at hrec
      by_cases howns : fsel f ≤ i ∧ i < fsel f + csel f
      · simp only [howns, if_pos]
        refine ⟨Nat.le_refl _, ⟨f, ?_, howns.1, howns.2⟩, ?_⟩
        · simp
        · intro j g hj hg1 hg2
          cases j with
          | zero => omega
          | succ j2 => exact absurd ⟨hg1, hg2⟩ (hrec j2 g (by simpa using hj))
      · simp only [howns, if_neg, not_false_iff]
        intro j g hj
        cases j with
        | zero =>
          simp at hj
          subst hj
          exact howns
        | succ j2 => exact hrec j2 g (by simpa using hj)

theorem assignLoop_get :
    ∀ {F : List ManFolder} {p0 : Nat} {fp gp fp2 gp2 : List (Option Nat)},
      assignLoop F p0 fp gp = some (fp2, gp2) → ∀ i,
      fp2.get? i = (match lastOwnerBy (fun f => f.folders_start) (fun f => f.folders_count) F p0 i with
                    | some q => some (some q)
                    | none => fp.get? i) ∧
      gp2.get? i = (match lastOwnerBy (fun f => f.files_start) (fun f => f.files_count) F p0 i with
                    | some q => some (some q)
                    | none => gp.get? i) := by
  intro F
  induction F with
  | nil =>
    intro p0 fp gp fp2 gp2 h i
    simp only [assignLoop] at h
    cases h
    simp [lastOwnerBy]
  | cons f rest ih =>
    intro p0 fp gp fp2 gp2 h i
    simp only [assignLoop, assignStep] at h
    cases hfa : assignRange fp f.folders_start f.folders_count p0 with
    | none => rw [hfa] at h; cases h
    | some fpa =>
      rw [hfa] at h
      cases hga : assignRange gp f.files_start f.files_count p0 with
      | none => rw [hga] at h; cases h
      | some gpa =>
        rw [hga] at h
        have hrec := ih h i
        simp only [lastOwnerBy]
        constructor
        · cases hlo : lastOwnerBy (fun f => f.folders_start) (fun f => f.folders_count) rest (p0 + 1) i with
          | some q =>
            rw [hlo] at hrec
            exact hrec.1
          | none =>
            rw [hlo] at hrec
            rw [hrec.1]
            by_cases howns : f.folders_start ≤ i ∧ i < f.folders_start + f.folders_count
            · simp only [howns, if_pos]
              exact assignRange_get_in hfa howns.1 howns.2
            · simp only [howns, if_neg, not_false_iff]
              exact assignRange_get_out hfa (by omega)
        · cases hlo : lastOwnerBy (fun f => f.files_start) (fun f => f.files_count) rest (p0 + 1) i with
          | some q =>
            rw [hlo] at hrec
            exact hrec.2
          | none =>
            rw [hlo] at hrec
            rw [hrec.2]
            by_cases howns : f.files_start ≤ i ∧ i < f.files_start + f.files_count
            · simp only [howns, if_pos]
              exact assignRange_get_in hga howns.1 howns.2
            · simp only [howns, if_neg, not_false_iff]
              exact assignRange_get_out hga (by omega)

/-! ### Lemmas about `Man.read` -/

theorem readFolders_length :
    ∀ {n : Nat} {b : List Nat} {fs : List ManFolder} {b2 : List Nat},
      readFolders n b = some (fs, b2) → fs.length = n := by
  intro n
  induction n with
  | zero =>
    intro b fs b2 h
    simp only [readFolders] at h
    cases h
    rfl
  | succ n ih =>
    intro b fs b2 h
    simp only [readFolders] at h
    split at h
    · cases h
    · rename_i f b1 hp
      split at h
      · cases h
      · rename_i fs1 b3 hr
        cases h
        simp [ih hr]

theorem readFiles_length :
    ∀ {n : Nat} {b : List Nat} {fs : List ManFile} {b2 : List Nat},
      readFiles n b = some (fs, b2) → fs.length = n := by
  intro n
  induction n with
  | zero =>
    intro b fs b2 h
    simp only [readFiles] at h
    cases h
    rfl
  | succ n ih =>
    intro b fs b2 h
    simp only [readFiles] at h
    split at h
    · cases h
    · rename_i f b1 hp
      split at h
      · cases h
      · rename_i fs1 b3 hr
        cases h
        simp [ih hr]

/-- Inversion of a successful decode: the parent arrays of the result are
exactly the output of the assignment loop run on the decoded folder table
over fresh all-`none` arrays of the right lengths. -/
theorem man_read_ok_assign {buf : List Nat} {man : Man} (h : Man.read buf = Except.ok man) :
    assignLoop man.folders 0 (List.replicate man.folders.length none)
      (List.replicate man.files.length none) = some (man.folder_parents, man.file_parents) := by
  simp only [Man.read] at h
  split at h
  · split at h
    · exact Except.noConfusion h
    · rename_i header b1 hheader
      split at h
      · exact Except.noConfusion h
      · rename_i folders b2 hfolders
        split at h
        · exact Except.noConfusion h
        · rename_i files b3 hfiles
          split at h
          · exact Except.noConfusion h
          · rename_i chars hchars
            split at h
            · exact Except.noConfusion h
            · rename_i fp gp hassign
              cases h
              simpa [readFolders_length hfolders, readFiles_length hfiles] using hassign
  · exact Except.noConfusion h

/-- A buffer whose first four bytes are not `RLSM` fails the `assert` at
the top of `Man.read`, whatever the rest of the buffer holds. -/
theorem man_read_bad_magic_of {buf : List Nat} (hm : List.take 4 buf ≠ rlsmMagic) :
    Man.read buf = Except.error ManError.badMagic := by
  simp only [Man.read, bread]
  rw [if_neg hm]

/-- With a good magic, `Man.read` never reports `badMagic`: every later
failure is a different error. -/
theorem man_read_ne_bad_magic {buf : List Nat} (hm : List.take 4 buf = rlsmMagic) :
    Man.read buf ≠ Except.error ManError.badMagic := by
  simp only [Man.read, bread]
  rw [if_pos hm]
  intro h
  split at h
  · exact ManError.noConfusion (Except.error.inj h)
  · split at h
    · exact ManError.noConfusion (Except.error.inj h)
    · split at h
      · exact ManError.noConfusion (Except.error.inj h)
      · split at h
        · exact ManError.noConfusion (Except.error.inj h)
        · split at h
          · exact ManError.noConfusion (Except.error.inj h)
          · exact Except.noConfusion h

/-! ### The folder-range invariant -/

/-- Pairwise test over all unordered pairs of a list. -/
def pairwiseB (r : ManFolder → ManFolder → Bool) : List ManFolder → Bool
  | [] => true
  | f :: rest => rest.all (r f) && pairwiseB r rest

/-- The folder ranges of `f` and `g` are disjoint. -/
def disjFoldersB (f g : ManFolder) : Bool :=
  decide (f.folders_count = 0 ∨ g.folders_count = 0 ∨
    f.folders_start + f.folders_count ≤ g.folders_start ∨
    g.folders_start + g.folders_count ≤ f.folders_start)

/-- The file ranges of `f` and `g` are disjoint. -/
def disjFilesB (f g : ManFolder) : Bool :=
  decide (f.files_count = 0 ∨ g.files_count = 0 ∨
    f.files_start + f.files_count ≤ g.files_start ∨
    g.files_start + g.files_count ≤ f.files_start)

/-- The manifest invariant stated by the specification: the manifest has a
root folder 0; child ranges stay inside the index spaces and never contain
folder 0; ranges of distinct folders are pairwise disjoint; and every
folder index other than 0 and every file index is covered by some range. -/
def rangesInv (man : Man) : Prop :=
  0 < man.folders.length ∧
  (man.folders.all fun f =>
    decide (f.folders_count = 0 ∨
      (1 ≤ f.folders_start ∧ f.folders_start + f.folders_count ≤ man.folders.length)) &&
    decide (f.files_count = 0 ∨ f.files_start + f.files_count ≤ man.files.length)) = true ∧
  pairwiseB disjFoldersB man.folders = true ∧
  pairwiseB disjFilesB man.folders = true ∧
  ((List.range man.folders.length).all fun c =>
    decide (c = 0) ||
      man.folders.any fun f =>
        decide (f.folders_start ≤ c ∧ c < f.folders_start + f.folders_count)) = true ∧
  ((List.range man.files.length).all fun c =>
    man.folders.any fun f =>
      decide (f.files_start ≤ c ∧ c < f.files_start + f.files_count)) = true

instance (man : Man) : Decidable (rangesInv man) := by
  unfold rangesInv
  infer_instance

theorem pairwiseB_spec (r : ManFolder → ManFolder → Bool) :
    ∀ (l : List ManFolder), pairwiseB r l = true →
      ∀ i j fi fj, i < j → l.get? i = some fi → l.get? j = some fj → r fi fj = true := by
  intro l
  induction l with
  | nil =>
    intro _ i j fi fj _ hi
    simp at hi
  | cons f rest ih =>
    intro h i j fi fj hij hi hj
    simp only [pairwiseB, Bool.and_eq_true] at h
    cases i with
    | zero =>
      simp only [List.get?] at hi
      cases hi
      cases j with
      | zero => omega
      | succ j2 =>
        exact List.all_eq_true.mp h.1 fj (List.get?_mem (by simpa using hj))
    | succ i2 =>
      cases j with
      | zero => omega
      | succ j2 =>
        exact ih h.2 i2 j2 fi fj (by omega) (by simpa using hi) (by simpa using hj)

/-- Under the invariant, two distinct folders cannot both own a folder
index `c`. -/
theorem inv_disj_folders {man : Man} (hinv : rangesInv man) :
    ∀ p q fp fq c, p ≠ q →
      man.folders.get? p = some fp → man.folders.get? q = some fq →
      fp.folders_start ≤ c → c < fp.folders_start + fp.folders_count →
      fq.folders_start ≤ c → c < fq.folders_start + fq.folders_count → False := by
  intro p q fp fq c hne hp hq hp1 hp2 hq1 hq2
  rcases Nat.lt_or_ge p q with hlt | hge
  · have := pairwiseB_spec disjFoldersB man.folders hinv.2.2.1 p q fp fq hlt hp hq
    have hd := of_decide_eq_true this
    omega
  · have hlt : q < p := by omega
    have := pairwiseB_spec disjFoldersB man.folders hinv.2.2.1 q p fq fp hlt hq hp
    have hd := of_decide_eq_true this
    omega

/-- Under the invariant, two distinct folders cannot both own a file
index `c`. -/
theorem inv_disj_files {man : Man} (hinv : rangesInv man) :
    ∀ p q fp fq c, p ≠ q →
      man.folders.get? p = some fp → man.folders.get? q = some fq →
      fp.files_start ≤ c → c < fp.files_start + fp.files_count →
      fq.files_start ≤ c → c < fq.files_start + fq.files_count → False := by
  intro p q fp fq c hne hp hq hp1 hp2 hq1 hq2
  rcases Nat.lt_or_ge p q with hlt | hge
  · have := pairwiseB_spec disjFilesB man.folders hinv.2.2.2.1 p q fp fq hlt hp hq
    have hd := of_decide_eq_true this
    omega
  · have hlt : q < p := by omega
    have := pairwiseB_spec disjFilesB man.folders hinv.2.2.2.1 q p fq fp hlt hq hp
    have hd := of_decide_eq_true this
    omega

/-- Under the invariant, no folder range contains folder index 0. -/
theorem inv_no_owner_of_zero {man : Man} (hinv : rangesInv man) :
    ∀ p f, man.folders.get? p = some f →
      ¬(f.folders_start ≤ 0 ∧ 0 < f.folders_start + f.folders_count) := by
  intro p f hp howns
  have hall := List.all_eq_true.mp hinv.2.1 f (List.get?_mem hp)
  simp only [Bool.and_eq_true, decide_eq_true_eq] at hall
  rcases hall.1 with h0 | ⟨h1, _⟩ <;> omega

/-! ### Claims C1, C2, C6 -/

/-- C1: after `Man.read` decodes a manifest whose folder child ranges
satisfy the invariant (pairwise disjoint ranges, every folder index other
than 0 and every file index covered, folder 0 in no range), every index
`c` in folder `p`'s folder range has `folder_parents[c] = p`, every index
`c` in folder `p`'s file range has `file_parents[c] = p`, and folder 0's
parent is `None`. -/
theorem man_read_parent_inversion {buf : List Nat} {man : Man}
    (hread : Man.read buf = Except.ok man) (hinv : rangesInv man) :
    (∀ p f c, man.folders.get? p = some f →
       f.folders_start ≤ c → c < f.folders_start + f.folders_count →
       man.folder_parents.get? c = some (some p)) ∧
    (∀ p f c, man.folders.get? p = some f →
       f.files_start ≤ c → c < f.files_start + f.files_count →
       man.file_parents.get? c = some (some p)) ∧
    man.folder_parents.get? 0 = some none := by
  have hassign := man_read_ok_assign hread
  refine ⟨?_, ?_, ?_⟩
  · intro p f c hp h1 h2
    have hget := (assignLoop_get hassign c).1
    have hspec := lastOwnerBy_spec (fun f => f.folders_start) (fun f => f.folders_count)
      man.folders 0 c
    cases hlo : lastOwnerBy (fun f => f.folders_start) (fun f => f.folders_count)
        man.folders 0 c with
    | none =>
      rw [hlo] at hspec
      exact absurd ⟨h1, h2⟩ (hspec p f hp)
    | some q =>
      rw [hlo] at hspec
      obtain ⟨-, ⟨f2, hq, hq1, hq2⟩, -⟩ := hspec
      rw [Nat.sub_zero] at hq
      have hpq : p = q := by
        by_contra hne
        exact inv_disj_folders hinv p q f f2 c hne hp hq h1 h2 hq1 hq2
      rw [hget, hlo, hpq]
  · intro p f c hp h1 h2
    have hget := (assignLoop_get hassign c).2
    have hspec := lastOwnerBy_spec (fun f => f.files_start) (fun f => f.files_count)
      man.folders 0 c
    cases hlo : lastOwnerBy (fun f => f.files_start) (fun f => f.files_count)
        man.folders 0 c with
    | none =>
      rw [hlo] at hspec
      exact absurd ⟨h1, h2⟩ (hspec p f hp)
    | some q =>
      rw [hlo] at hspec
      obtain ⟨-, ⟨f2, hq, hq1, hq2⟩, -⟩ := hspec
      rw [Nat.sub_zero] at hq
      have hpq : p = q := by
        by_contra hne
        exact inv_disj_files hinv p q f f2 c hne hp hq h1 h2 hq1 hq2
      rw [hget, hlo, hpq]
  · have hget := (assignLoop_get hassign 0).1
    have hspec := lastOwnerBy_spec (fun f => f.folders_start) (fun f => f.folders_count)
      man.folders 0 0
    cases hlo : lastOwnerBy (fun f => f.folders_start) (fun f => f.folders_count)
        man.folders 0 0 with
    | none =>
      rw [hlo] at hget
      rw [hget]
      simp [List.get?_eq_getElem?, List.getElem?_replicate, hinv.1]
    | some q =>
      rw [hlo] at hspec
      obtain ⟨-, ⟨f2, hq, hq1, hq2⟩, -⟩ := hspec
      rw [Nat.sub_zero] at hq
      exact absurd ⟨hq1, hq2⟩ (inv_no_owner_of_zero hinv q f2 hq)

/-- C1 witness: the concrete manifest `exBuf1` decodes to `exMan1`,
satisfies the invariant, and has the promised parent arrays. -/
theorem man_read_parent_inversion_witness :
    Man.read exBuf1 = Except.ok exMan1 ∧ rangesInv exMan1 ∧
    exMan1.folder_parents.get? 1 = some (some 0) ∧
    exMan1.file_parents.get? 0 = some (some 1) ∧
    exMan1.folder_parents.get? 0 = some none := by
  have h := @man_read_parent_inversion exBuf1 exMan1 (by decide) (by decide)
  exact ⟨by decide, by decide,
    h.1 0 ⟨0, 1, 1, 0, 0⟩ 1 (by decide) (by decide) (by decide),
    h.2.1 1 ⟨1, 0, 0, 0, 1⟩ 0 (by decide) (by decide) (by decide),
    h.2.2⟩

/-- C2: decoding fails with the bad-magic error exactly when the first
four bytes differ from `RLSM`, and in that case the result does not
depend on anything past the first four bytes (no header, folder, file or
name parsing takes place). -/
theorem man_read_magic_rejection :
    ∀ buf : List Nat,
      (Man.read buf = Except.error ManError.badMagic ↔ List.take 4 buf ≠ rlsmMagic) ∧
      (∀ buf2 : List Nat, List.take 4 buf2 = List.take 4 buf →
        List.take 4 buf ≠ rlsmMagic → Man.read buf = Man.read buf2) := by
  intro buf
  refine ⟨⟨?_, ?_⟩, ?_⟩
  · intro h hm
    exact man_read_ne_bad_magic hm h
  · exact man_read_bad_magic_of
  · intro buf2 heq hm
    rw [man_read_bad_magic_of hm, man_read_bad_magic_of (by rw [heq]; exact hm)]

/-- C2 witness: a concrete non-`RLSM` buffer is rejected independently of
its tail. -/
theorem man_read_magic_rejection_witness :
    List.take 4 ([1, 2, 3, 4, 9] : List Nat) = List.take 4 ([1, 2, 3, 4] : List Nat) ∧
    List.take 4 ([1, 2, 3, 4] : List Nat) ≠ rlsmMagic ∧
    Man.read [1, 2, 3, 4] = Man.read [1, 2, 3, 4, 9] :=
  ⟨by decide, by decide,
    (man_read_magic_rejection [1, 2, 3, 4]).2 [1, 2, 3, 4, 9] (by decide) (by decide)⟩

/-- C6: parent assignment in `Man.read` is last-writer-wins in folder
table order.  Any index covered by at least one folder range gets the
largest covering folder index as parent; an index covered by no range
keeps parent `None`. -/
theorem man_read_overlap_last_writer_wins {buf : List Nat} {man : Man}
    (hread : Man.read buf = Except.ok man) :
    (∀ c, (∃ p f, man.folders.get? p = some f ∧
        f.folders_start ≤ c ∧ c < f.folders_start + f.folders_count) →
      ∃ p f, man.folders.get? p = some f ∧
        f.folders_start ≤ c ∧ c < f.folders_start + f.folders_count ∧
        (∀ q g, man.folders.get? q = some g →
          g.folders_start ≤ c → c < g.folders_start + g.folders_count → q ≤ p) ∧
        man.folder_parents.get? c = some (some p)) ∧
    (∀ c, c < man.folders.length →
      (∀ p f, man.folders.get? p = some f →
        ¬(f.folders_start ≤ c ∧ c < f.folders_start + f.folders_count)) →
      man.folder_parents.get? c = some none) ∧
    (∀ c, (∃ p f, man.folders.get? p = some f ∧
        f.files_start ≤ c ∧ c < f.files_start + f.files_count) →
      ∃ p f, man.folders.get? p = some f ∧
        f.files_start ≤ c ∧ c < f.files_start + f.files_count ∧
        (∀ q g, man.folders.get? q = some g →
          g.files_start ≤ c → c < g.files_start + g.files_count → q ≤ p) ∧
        man.file_parents.get? c = some (some p)) ∧
    (∀ c, c < man.files.length →
      (∀ p f, man.folders.get? p = some f →
        ¬(f.files_start ≤ c ∧ c < f.files_start + f.files_count)) →
      man.file_parents.get? c = some none) := by
  have hassign := man_read_ok_assign hread
  refine ⟨?_, ?_, ?_, ?_⟩
  · intro c hex
    have hget := (assignLoop_get hassign c).1
    have hspec := lastOwnerBy_spec (fun f => f.folders_start) (fun f => f.folders_count)
      man.folders 0 c
    cases hlo : lastOwnerBy (fun f => f.folders_start) (fun f => f.folders_count)
        man.folders 0 c with
    | none =>
      rw [hlo] at hspec
      obtain ⟨p, f, hp, h1, h2⟩ := hex
      exact absurd ⟨h1, h2⟩ (hspec p f hp)
    | some q =>
      rw [hlo] at hspec
      obtain ⟨-, ⟨f2, hq, hq1, hq2⟩, hmax⟩ := hspec
      rw [Nat.sub_zero] at hq
      refine ⟨q, f2, hq, hq1, hq2, ?_, ?_⟩
      · intro j g hj hg1 hg2
        have := hmax j g hj hg1 hg2
        omega
      · rw [hget, hlo]
  · intro c hc hnone
    have hget := (assignLoop_get hassign c).1
    have hspec := lastOwnerBy_spec (fun f => f.folders_start) (fun f => f.folders_count)
      man.folders 0 c
    cases hlo : lastOwnerBy (fun f => f.folders_start) (fun f => f.folders_count)
        man.folders 0 c with
    | none =>
      rw [hlo] at hget
      rw [hget]
      simp [List.get?_eq_getElem?, List.getElem?_replicate, hc]
    | some q =>
      rw [hlo] at hspec
      obtain ⟨-, ⟨f2, hq, hq1, hq2⟩, -⟩ := hspec
      rw [Nat.sub_zero] at hq
      exact absurd ⟨hq1, hq2⟩ (hnone q f2 hq)
  · intro c hex
    have hget := (assignLoop_get hassign c).2
    have hspec := lastOwnerBy_spec (fun f => f.files_start) (fun f => f.files_count)
      man.folders 0 c
    cases hlo : lastOwnerBy (fun f => f.files_start) (fun f => f.files_count)
        man.folders 0 c with
    | none =>
      rw [hlo] at hspec
      obtain ⟨p, f, hp, h1, h2⟩ := hex
      exact absurd ⟨h1, h2⟩ (hspec p f hp)
    | some q =>
      rw [hlo] at hspec
      obtain ⟨-, ⟨f2, hq, hq1, hq2⟩, hmax⟩ := hspec
      rw [Nat.sub_zero] at hq
      refine ⟨q, f2, hq, hq1, hq2, ?_, ?_⟩
      · intro j g hj hg1 hg2
        have := hmax j g hj hg1 hg2
        omega
      · rw [hget, hlo]
  · intro c hc hnone
    have hget := (assignLoop_get hassign c).2
    have hspec := lastOwnerBy_spec (fun f => f.files_start) (fun f => f.files_count)
      man.folders 0 c
    cases hlo : lastOwnerBy (fun f => f.files_start) (fun f => f.files_count)
        man.folders 0 c with
    | none =>
      rw [hlo] at hget
      rw [hget]
      simp [List.get?_eq_getElem?, List.getElem?_replicate, hc]
    | some q =>
      rw [hlo] at hspec
      obtain ⟨-, ⟨f2, hq, hq1, hq2⟩, -⟩ := hspec
      rw [Nat.sub_zero] at hq
      exact absurd ⟨hq1, hq2⟩ (hnone q f2 hq)

/-- C6 witness: in `exBuf2` both folders 0 and 1 claim file 0; the decode
records folder 1 — the larger covering index — as file 0's parent, and
file 1, covered by no range, keeps parent `None`. -/
theorem man_read_overlap_last_writer_wins_witness :
    Man.read exBuf2 = Except.ok exMan2 ∧
    (∃ p f, exMan2.folders.get? p = some f ∧
      f.files_start ≤ 0 ∧ 0 < f.files_start + f.files_count ∧
      (∀ q g, exMan2.folders.get? q = some g →
        g.files_start ≤ 0 → 0 < g.files_start + g.files_count → q ≤ p) ∧
      exMan2.file_parents.get? 0 = some (some p)) ∧
    exMan2.file_parents.get? 1 = some none := by
  have h := @man_read_overlap_last_writer_wins exBuf2 exMan2 (by decide)
  refine ⟨by decide, h.2.2.1 0 ⟨0, ⟨0, 1, 1, 0, 1⟩, by decide, by decide, by decide⟩, ?_⟩
  refine h.2.2.2 1 (by decide) ?_
  intro p f hp
  have hmem := List.get?_mem hp
  have hcases : f = ⟨0, 1, 1, 0, 1⟩ ∨ f = ⟨1, 0, 0, 0, 1⟩ := by
    simpa [exMan2] using hmem
  rcases hcases with rfl | rfl <;> decide

/-! ### Claim C4: path reconstruction -/

/-- The parent walk builds its result by prepending in front of the
accumulator: running with accumulator `acc` returns the `acc`-free result
with `acc` appended. -/
theorem fileFolderAux_acc (m : Man) :
    ∀ (fuel : Nat) (fi : Option Nat) (acc : String),
      Man.fileFolderAux m fuel fi acc =
        (Man.fileFolderAux m fuel fi "").map (fun pre => pre ++ acc) := by
  intro fuel
  induction fuel with
  | zero =>
    intro fi acc
    cases fi with
    | none => rfl
    | some fi => rfl
  | succ fuel ih =>
    intro fi acc
    cases fi with
    | none => rfl
    | some fi =>
      simp only [Man.fileFolderAux]
      cases hf : m.folders.get? fi with
      | none => cases hp : m.folder_parents.get? fi <;> rfl
      | some f =>
        cases hp : m.folder_parents.get? fi with
        | none => rfl
        | some pnext =>
          show (match m.names.get? f.name with
                | some nm => m.fileFolderAux fuel pnext (nm ++ "/" ++ acc)
                | none => none) =
              Option.map (fun pre => pre ++ acc)
                (match m.names.get? f.name with
                 | some nm => m.fileFolderAux fuel pnext (nm ++ "/" ++ "")
                 | none => none)
          cases hn : m.names.get? f.name with
          | none => rfl
          | some nm =>
            show m.fileFolderAux fuel pnext (nm ++ "/" ++ acc) =
              Option.map (fun pre => pre ++ acc) (m.fileFolderAux fuel pnext (nm ++ "/" ++ ""))
            rw [ih pnext (nm ++ "/" ++ acc), ih pnext (nm ++ "/" ++ "")]
            cases Man.fileFolderAux m fuel pnext "" with
            | none => rfl
            | some pre =>
              show some (pre ++ (nm ++ "/" ++ acc)) = some (pre ++ (nm ++ "/" ++ "") ++ acc)
              simp [String.append_empty, String.append_assoc]

/-- C4: `file_path` is `file_folder` followed by the file's name; the
folder part is built by walking parent links upward, prepending
`name + "/"` at each step (formalized by the accumulator law above); and
on the concrete 3-level tree root → A → B with `f.txt` in B it yields
`"/A/B/f.txt"`. -/
theorem file_path_reconstruction :
    (∀ (m : Man) (i : Nat) (d n : String),
      m.file_folder i = some d → m.file_name i = some n →
      m.file_path i = some (d ++ n)) ∧
    (∀ (m : Man) (fuel : Nat) (fi : Option Nat) (acc s : String),
      Man.fileFolderAux m fuel fi acc = some s →
      ∃ pre, s = pre ++ acc ∧ Man.fileFolderAux m fuel fi "" = some pre) ∧
    exMan3.file_path 0 = some "/A/B/f.txt" := by
  refine ⟨?_, ?_, by decide⟩
  · intro m i d n hd hn
    simp only [Man.file_path, hd, hn]
  · intro m fuel fi acc s h
    rw [fileFolderAux_acc] at h
    cases hpre : Man.fileFolderAux m fuel fi "" with
    | none => rw [hpre] at h; cases h
    | some pre =>
      rw [hpre] at h
      simp only [Option.map_some'] at h
      exact ⟨pre, (Option.some.inj h).symm, rfl⟩

/-- C4 witness: the general part applied to the concrete 3-level tree. -/
theorem file_path_reconstruction_witness :
    exMan3.file_folder 0 = some "/A/B/" ∧ exMan3.file_name 0 = some "f.txt" ∧
    exMan3.file_path 0 = some ("/A/B/" ++ "f.txt") :=
  ⟨by decide, by decide,
    file_path_reconstruction.1 exMan3 0 "/A/B/" "f.txt" (by decide) (by decide)⟩

/-! ### Claim C5: local verification -/

theorem file_path_some_file {m : Man} {i : Nat} {rel : String}
    (h : m.file_path i = some rel) : ∃ f, m.files.get? i = some f := by
  unfold Man.file_path at h
  split at h
  · rename_i d n hd hn
    unfold Man.file_name at hn
    obtain ⟨f, hf, -⟩ := Option.bind_eq_some.mp hn
    exact ⟨f, hf⟩
  · cases h

/-- C5: `file_verify(i, out)` returns `true` exactly when the file at
`out + file_path(i)` exists with the manifest's uncompressed size and an
MD5 hexdigest equal to the recorded digest's lowercase hex, and returns
`false` otherwise.  The function only reads the filesystem (its argument
is the read-only content map and its result a boolean — it performs no
writes). -/
theorem file_verify_characterization
    (md5fn : List Nat → List Nat) (fsFiles : String → Option (List Nat))
    (m : Man) (i : Nat) (out rel : String)
    (hpath : m.file_path i = some rel) :
    ∃ f, m.files.get? i = some f ∧
      (Man.file_verify md5fn fsFiles m i out = some true ↔
        ∃ content, fsFiles (out ++ rel) = some content ∧
          content.length = f.size_uncompressed ∧
          hexlify (md5fn content) = hexlify f.md5) ∧
      (Man.file_verify md5fn fsFiles m i out = some false ↔
        ¬ ∃ content, fsFiles (out ++ rel) = some content ∧
          content.length = f.size_uncompressed ∧
          hexlify (md5fn content) = hexlify f.md5) := by
  obtain ⟨f, hf⟩ := file_path_some_file hpath
  refine ⟨f, hf, ?_⟩
  cases hc : fsFiles (out ++ rel) with
  | none =>
    have hv : Man.file_verify md5fn fsFiles m i out = some false := by
      simp only [Man.file_verify, hpath, hc]
    rw [hv]
    refine ⟨⟨fun h => ?_, fun hex => ?_⟩, ⟨fun _ hex => ?_, fun _ => rfl⟩⟩
    · exact Bool.noConfusion (Option.some.inj h)
    · obtain ⟨content, hcon, -⟩ := hex
      exact Option.noConfusion hcon
    · obtain ⟨content, hcon, -⟩ := hex
      exact Option.noConfusion hcon
  | some content =>
    by_cases hsize : content.length = f.size_uncompressed
    · by_cases hmd5 : hexlify (md5fn content) = hexlify f.md5
      · have hv : Man.file_verify md5fn fsFiles m i out = some true := by
          simp only [Man.file_verify, hpath, hc, hf]
          rw [if_neg (fun hne => hne hsize), if_neg (fun hne => hne hmd5)]
        rw [hv]
        refine ⟨⟨fun _ => ⟨content, rfl, hsize, hmd5⟩, fun _ => rfl⟩,
          ⟨fun h => ?_, fun hnex => ?_⟩⟩
        · exact Bool.noConfusion (Option.some.inj h)
        · exact absurd ⟨content, rfl, hsize, hmd5⟩ hnex
      · have hv : Man.file_verify md5fn fsFiles m i out = some false := by
          simp only [Man.file_verify, hpath, hc, hf]
          rw [if_neg (fun hne => hne hsize), if_pos hmd5]
        rw [hv]
        refine ⟨⟨fun h => ?_, fun hex => ?_⟩, ⟨fun _ hex => ?_, fun _ => rfl⟩⟩
        · exact Bool.noConfusion (Option.some.inj h)
        · obtain ⟨content2, hcon2, -, hm2⟩ := hex
          cases Option.some.inj hcon2
          exact absurd hm2 hmd5
        · obtain ⟨content2, hcon2, -, hm2⟩ := hex
          cases Option.some.inj hcon2
          exact absurd hm2 hmd5
    · have hv : Man.file_verify md5fn fsFiles m i out = some false := by
        simp only [Man.file_verify, hpath, hc, hf]
        rw [if_pos hsize]
      rw [hv]
      refine ⟨⟨fun h => ?_, fun hex => ?_⟩, ⟨fun _ hex => ?_, fun _ => rfl⟩⟩
      · exact Bool.noConfusion (Option.some.inj h)
      · obtain ⟨content2, hcon2, hs2, -⟩ := hex
        cases Option.some.inj hcon2
        exact absurd hs2 hsize
      · obtain ⟨content2, hcon2, hs2, -⟩ := hex
        cases Option.some.inj hcon2
        exact absurd hs2 hsize

/-- C5 witness: on a concrete filesystem holding a matching file,
verification succeeds. -/
theorem file_verify_characterization_witness :
    exMan1.file_path 0 = some "/A/f.txt" ∧
    Man.file_verify (fun _ => List.replicate 16 0)
      (fun p => if p = "/o/A/f.txt" then some [7, 8, 9] else none)
      exMan1 0 "/o" = some true := by
  obtain ⟨f, hf, hiff, -⟩ := file_verify_characterization
    (fun _ => List.replicate 16 0)
    (fun p => if p = "/o/A/f.txt" then some [7, 8, 9] else none)
    exMan1 0 "/o" "/A/f.txt" (by decide)
  have hfeq : f = ⟨2, [0, 0, 0, 1], List.replicate 16 0, 0, 3, 0, 0⟩ := by
    have h0 : exMan1.files.get? 0 =
        some ⟨2, [0, 0, 0, 1], List.replicate 16 0, 0, 3, 0, 0⟩ := by decide
    rw [h0] at hf
    exact (Option.some.inj hf).symm
  subst hfeq
  exact ⟨by decide, hiff.mpr ⟨[7, 8, 9], by decide, by decide, by decide⟩⟩

/-! ### The retry loop and claims C3, C7, C10 -/

/-- One step of the retry loop when the current attempt fails with
retries remaining. -/
theorem fetchLoop_succ_error (oracle : Nat → Except String (List Nat)) (k r : Nat) (e : String)
    (he : oracle k = Except.error e) :
    fetchLoop oracle k (r + 1) =
      ((fetchLoop oracle (k + 1) r).1, (fetchLoop oracle (k + 1) r).2 + 1) := by
  cases hX : fetchLoop oracle (k + 1) r with
  | mk res n =>
    rw [fetchLoop, he]
    simp [hX]

/-- When every attempt fails, the retry loop makes exactly `retries + 1`
attempts and ends in an error. -/
theorem fetchLoop_all_fail (oracle : Nat → Except String (List Nat))
    (hfail : ∀ k, ∃ e, oracle k = Except.error e) :
    ∀ r k, (fetchLoop oracle k r).2 = r + 1 ∧
      ∃ e, (fetchLoop oracle k r).1 = Except.error e := by
  intro r
  induction r with
  | zero =>
    intro k
    obtain ⟨e, he⟩ := hfail k
    refine ⟨?_, e, ?_⟩ <;> simp [fetchLoop, he]
  | succ r ih =>
    intro k
    obtain ⟨e, he⟩ := hfail k
    obtain ⟨hn, e2, he2⟩ := ih (k + 1)
    rw [fetchLoop_succ_error oracle k r e he]
    exact ⟨by simp [hn], e2, by simp [he2]⟩

/-- C7: once the path of file `i` resolves (as it does for every file of
a well-formed manifest), `file_download` always returns a
`(path, error)` pair — every directory-creation, network, decompression
or write failure comes back as data — with `path = out + file_path(i)`,
and the error is `None` exactly when the inflated body was fetched and
written, in which case the destination holds the inflated bytes. -/
theorem file_download_total_outcome (env : Env) (fs : FS) (m : Man) (i : Nat)
    (cdn out rel dir : String) (retries : Nat)
    (hpath : m.file_path i = some rel) (hdir : m.file_folder i = some dir) :
    ∃ fs2 err, Man.file_download env fs m i cdn out retries = some (fs2, (out ++ rel, err)) ∧
      (err = none ↔ env.mkdir (out ++ "/" ++ dir) = Except.ok () ∧
        (∃ data, (fetchLoop (env.fetch i) 0 retries).1 = Except.ok data) ∧
        env.write (out ++ rel) = Except.ok ()) ∧
      (err = none → ∀ data, (fetchLoop (env.fetch i) 0 retries).1 = Except.ok data →
        fs2.files (out ++ rel) = some data) := by
  simp only [Man.file_download, hpath, hdir]
  cases hmk : env.mkdir (out ++ "/" ++ dir) with
  | error e =>
    refine ⟨fs, some e, rfl, ?_, fun h => Option.noConfusion h⟩
    constructor
    · intro h; exact Option.noConfusion h
    · rintro ⟨hc1, -, -⟩
      exact Except.noConfusion hc1
  | ok u =>
    cases u
    cases hloop : fetchLoop (env.fetch i) 0 retries with
    | mk res n =>
      cases res with
      | error e =>
        refine ⟨_, some e, rfl, ?_, fun h => Option.noConfusion h⟩
        constructor
        · intro h; exact Option.noConfusion h
        · rintro ⟨-, ⟨data, hdata⟩, -⟩
          exact Except.noConfusion hdata
      | ok data =>
        cases hw : env.write (out ++ rel) with
        | error e =>
          refine ⟨_, some e, rfl, ?_, fun h => Option.noConfusion h⟩
          constructor
          · intro h; exact Option.noConfusion h
          · rintro ⟨-, -, hc3⟩
            exact Except.noConfusion hc3
        | ok u =>
          cases u
          refine ⟨_, none, rfl, ?_, ?_⟩
          · exact ⟨fun _ => ⟨rfl, ⟨data, rfl⟩, rfl⟩, fun _ => rfl⟩
          · rintro - data2 hdata2
            cases Except.ok.inj hdata2
            simp

/-- Environment in which every external call succeeds and each fetched
body inflates to `[1, 2, 3]`. -/
def envSucc : Env :=
  { mkdir := fun _ => Except.ok ()
  , fetch := fun _ _ => Except.ok [1, 2, 3]
  , write := fun _ => Except.ok ()
  , manifest := fun _ => Except.error "offline" }

/-- Environment in which every network fetch fails. -/
def envFail : Env :=
  { mkdir := fun _ => Except.ok ()
  , fetch := fun _ _ => Except.error "net"
  , write := fun _ => Except.ok ()
  , manifest := fun _ => Except.error "net" }

/-- The empty filesystem. -/
def fs0 : FS := { files := fun _ => none, dirs := fun _ => false }

/-- C7 witness: a concrete successful download returns the path paired
with no error and writes the inflated bytes. -/
theorem file_download_total_outcome_witness :
    exMan1.file_path 0 = some "/A/f.txt" ∧ exMan1.file_folder 0 = some "/A/" ∧
    ∃ fs2, Man.file_download envSucc fs0 exMan1 0 "c" "/o" 3 =
        some (fs2, ("/o" ++ "/A/f.txt", none)) ∧
      fs2.files ("/o" ++ "/A/f.txt") = some [1, 2, 3] := by
  obtain ⟨fs2, err, heq, hiff, hwr⟩ := file_download_total_outcome envSucc fs0 exMan1 0
    "c" "/o" "/A/f.txt" "/A/" 3 (by decide) (by decide)
  have herr : err = none := hiff.mpr ⟨rfl, ⟨[1, 2, 3], rfl⟩, rfl⟩
  subst herr
  exact ⟨by decide, by decide, fs2, heq, hwr rfl [1, 2, 3] rfl⟩

/-- C3: with `retries = 2` and an endpoint that always fails, the retry
loop of `file_download` performs exactly 3 fetch attempts (and `r + 1`
attempts for any configured `r`), after which the call returns an error
outcome and the filesystem's file contents are untouched.  This is the
per-file retry parameter of `Man.file_download`; the top-level
`download`'s own `retries` argument is never forwarded to it. -/
theorem file_download_retry_exhaustion (env : Env) (fs : FS) (m : Man) (i : Nat)
    (cdn out rel dir : String)
    (hpath : m.file_path i = some rel) (hdir : m.file_folder i = some dir)
    (hmk : env.mkdir (out ++ "/" ++ dir) = Except.ok ())
    (hfail : ∀ k, ∃ e, env.fetch i k = Except.error e) :
    (∀ r, (fetchLoop (env.fetch i) 0 r).2 = r + 1) ∧
    (fetchLoop (env.fetch i) 0 2).2 = 3 ∧
    ∃ fs2 e, Man.file_download env fs m i cdn out 2 = some (fs2, (out ++ rel, some e)) ∧
      fs2.files = fs.files := by
  have hall := fetchLoop_all_fail (env.fetch i) hfail
  refine ⟨fun r => (hall r 0).1, (hall 2 0).1, ?_⟩
  simp only [Man.file_download, hpath, hdir, hmk]
  obtain ⟨-, e, he⟩ := hall 2 0
  cases hloop : fetchLoop (env.fetch i) 0 2 with
  | mk res n =>
    rw [hloop] at he
    simp only at he
    rw [he]
    exact ⟨_, e, rfl, rfl⟩

/-- C3 witness: the always-failing environment with `retries = 2` makes 3
attempts and leaves the filesystem contents unchanged. -/
theorem file_download_retry_exhaustion_witness :
    exMan1.file_path 0 = some "/A/f.txt" ∧ exMan1.file_folder 0 = some "/A/" ∧
    (fetchLoop (envFail.fetch 0) 0 2).2 = 3 ∧
    ∃ fs2 e, Man.file_download envFail fs0 exMan1 0 "c" "/o" 2 =
        some (fs2, ("/o" ++ "/A/f.txt", some e)) ∧
      fs2.files = fs0.files := by
  have h := file_download_retry_exhaustion envFail fs0 exMan1 0 "c" "/o" "/A/f.txt" "/A/"
    (by decide) (by decide) rfl (fun k => ⟨"net", rfl⟩)
  exact ⟨by decide, by decide, h.2.1, h.2.2⟩

/-- C10: when every fetch attempt fails, `file_download` returns an error
outcome, the destination file is neither created nor modified — but the
destination folder `out + "/" + file_folder(i)` has been created before
the first attempt, so the directory side effect happens even for files
whose download fails. -/
theorem file_download_failure_frame (env : Env) (fs : FS) (m : Man) (i : Nat)
    (cdn out rel dir : String) (retries : Nat)
    (hpath : m.file_path i = some rel) (hdir : m.file_folder i = some dir)
    (hmk : env.mkdir (out ++ "/" ++ dir) = Except.ok ())
    (hfail : ∀ k, ∃ e, env.fetch i k = Except.error e) :
    ∃ fs2 e, Man.file_download env fs m i cdn out retries = some (fs2, (out ++ rel, some e)) ∧
      fs2.files = fs.files ∧ fs2.dirs (out ++ "/" ++ dir) = true := by
  have hall := fetchLoop_all_fail (env.fetch i) hfail
  simp only [Man.file_download, hpath, hdir, hmk]
  obtain ⟨-, e, he⟩ := hall retries 0
  cases hloop : fetchLoop (env.fetch i) 0 retries with
  | mk res n =>
    rw [hloop] at he
    simp only at he
    rw [he]
    exact ⟨_, e, rfl, rfl, by simp⟩

/-- C10 witness: in the always-failing environment the outcome is an
error, no file contents change, and the destination directory exists
afterwards. -/
theorem file_download_failure_frame_witness :
    exMan1.file_path 0 = some "/A/f.txt" ∧ exMan1.file_folder 0 = some "/A/" ∧
    envFail.mkdir ("/o" ++ "/" ++ "/A/") = Except.ok () ∧
    ∃ fs2 e, Man.file_download envFail fs0 exMan1 0 "c" "/o" 5 =
        some (fs2, ("/o" ++ "/A/f.txt", some e)) ∧
      fs2.files = fs0.files ∧ fs2.dirs ("/o" ++ "/" ++ "/A/") = true := by
  have h := file_download_failure_frame envFail fs0 exMan1 0 "c" "/o" "/A/f.txt" "/A/" 5
    (by decide) (by decide) rfl (fun k => ⟨"net", rfl⟩)
  exact ⟨by decide, by decide, rfl, h⟩

/-! ### Claims C8, C9 -/

/-- Modelled from the spec's words, for comparison with the code's
`padVersion`: "`version4` is the caller-supplied version string
left-padded with `\x220.\x22` segments to exactly four dot-separated
components" — pure string padding, without the integer
parse/re-render the code performs on each component. -/
def padVersionSpec (version : String) : String :=
  let comps := (splitDots version.data).map (fun l => String.mk l)
  String.intercalate "." (List.replicate (4 - comps.length) "0" ++ comps)

/-- C8 counterexample: on the one-component version string `"01"` the
code yields `"0.0.0.1"` (each component goes through `str(int(x))`),
while the spec's pure left-padding yields `"0.0.0.01"`. -/
theorem pad_version_counterexample :
    padVersion "01" = some "0.0.0.1" ∧ padVersionSpec "01" = "0.0.0.01" ∧
    padVersion "01" ≠ some (padVersionSpec "01") := by decide

/-- Components that all parse are mapped to their rendered forms. -/
theorem mapM_renderComp :
    ∀ (comps : List (List Char)), (∀ cs ∈ comps, (parsePyInt cs).isSome) →
      mapPyInt comps = some (comps.map renderComp) := by
  intro comps
  induction comps with
  | nil => intro; rfl
  | cons c rest ih =>
    intro h
    have hc := h c (by simp)
    cases hp : parsePyInt c with
    | none => rw [hp] at hc; cases hc
    | some v =>
      have hrest := ih (fun cs hm => h cs (by simp [hm]))
      simp [mapPyInt, hp, hrest, renderComp]

/-- C8 (amended): for a version string of at most four dot-separated
components, each parseable as an integer, `download` first normalizes
every component through `str(int(x))` (so `"01"` becomes `"1"`), then
left-pads the component list with `"0"` entries to exactly four, and
requests `{cdn}/projects/{project}/releases/{version4}/releasemanifest`;
e.g. `"1.2"` produces `"0.0.1.2"`. -/
theorem pad_version_normalized (cdn project version : String)
    (hlen : (splitDots version.data).length ≤ 4)
    (hparse : ∀ cs ∈ splitDots version.data, (parsePyInt cs).isSome) :
    padVersion version =
      some (String.intercalate "."
        (List.replicate (4 - (splitDots version.data).length) "0" ++
          (splitDots version.data).map renderComp)) ∧
    (List.replicate (4 - (splitDots version.data).length) "0" ++
      (splitDots version.data).map renderComp).length = 4 ∧
    downloadManifestUrl cdn project version =
      some (cdn ++ "/projects/" ++ project ++ "/releases/" ++
        String.intercalate "." (List.replicate (4 - (splitDots version.data).length) "0" ++
          (splitDots version.data).map renderComp) ++ "/releasemanifest") := by
  have hmap := mapM_renderComp (splitDots version.data) hparse
  have h1 : padVersion version =
      some (String.intercalate "."
        (List.replicate (4 - (splitDots version.data).length) "0" ++
          (splitDots version.data).map renderComp)) := by
    simp [padVersion, hmap]
  refine ⟨h1, ?_, ?_⟩
  · simp only [List.length_append, List.length_replicate, List.length_map]
    omega
  · simp only [downloadManifestUrl, h1, Option.map_some']
    rfl

/-- C8 witness: the amended padding law at the concrete version
`"1.2"`. -/
theorem pad_version_normalized_witness :
    (splitDots "1.2".data).length ≤ 4 ∧
    (∀ cs ∈ splitDots "1.2".data, (parsePyInt cs).isSome) ∧
    padVersion "1.2" = some "0.0.1.2" ∧
    downloadManifestUrl "http://c" "proj" "1.2" =
      some "http://c/projects/proj/releases/0.0.1.2/releasemanifest" := by
  have h := pad_version_normalized "http://c" "proj" "1.2" (by decide) (by decide)
  refine ⟨by decide, by decide, ?_, ?_⟩
  · rw [h.1]; decide
  · rw [h.2.2]; decide

/-- C9: the `retries` parameter of the top-level `download` has no effect:
the per-file closure calls `file_download` without forwarding it, so every
file runs with `file_download`'s default of 3 retries (4 attempts), and
two downloads differing only in `retries` behave identically. -/
theorem download_retries_ignored :
    (∀ (env : Env) (md5fn : List Nat → List Nat) (fs : FS)
       (cdn project version out : String) (threads r1 r2 : Nat),
      download env md5fn fs cdn project version out threads r1 =
        download env md5fn fs cdn project version out threads r2) ∧
    (∀ (env : Env) (m : Man) (cdn out : String) (i : Nat) (fs : FS),
      fetchClosure env m cdn out i fs = Man.file_download env fs m i cdn out 3) :=
  ⟨fun _ _ _ _ _ _ _ _ _ _ => rfl, fun _ _ _ _ _ _ => rfl⟩

end OldLolDl
